import Mathlib

/-!
# Verification of the prom-label-proxy enforcement pipeline

Shallow embedding of `src/injectproxy/routes.go`. Go strings are modelled as
Lean `String` (with `List Char` as the underlying byte/character sequence;
all inputs of interest are ASCII, where Go's byte order and `Char` order
agree). `url.Values` is modelled as an association list from keys to value
lists, which is the granularity at which the source manipulates it;
`Values.Encode`/re-parsing round-trips are modelled as the identity at this
granularity. External collaborators (the PromQL parser, `regexp`,
`net/http`) are modelled by small faithful counterparts or by Boolean-valued
parameters where only their verdict matters. Parts of the repository that
are not under `src/` (the PromQL enforcer of `enforce.go`) are modelled from
the spec and marked as such in their doc comments.
-/

deriving instance DecidableEq for Except

/-! ## Characters, names and values -/

/-- Characters accepted in label/metric identifiers by the selector parser
model (letters, digits, underscore, colon). -/
def isNameChar (c : Char) : Bool :=
  c.isAlpha || c.isDigit || c == '_' || c == ':'

/-- Characters of a label value that survive the quote/serialize/parse cycle
unescaped: anything but a double quote, a backslash and a comma. -/
def okValueChar (c : Char) : Bool :=
  !(c == '"' || c == '\\' || c == ',')

/-- Byte-order comparison on character lists, as Go compares strings. -/
def charListLe : List Char → List Char → Bool
  | [], _ => true
  | _ :: _, [] => false
  | a :: as, b :: bs =>
    if a.val < b.val then true
    else if b.val < a.val then false
    else charListLe as bs

/-- Go string comparison `a <= b`. -/
def strLe (a b : String) : Bool := charListLe a.data b.data

/-- Insertion step of the sort used to model `sort.Strings`. -/
def insertSorted (x : String) : List String → List String
  | [] => [x]
  | y :: ys => if strLe x y then x :: y :: ys else y :: insertSorted x ys

/-- `sort.Strings`: lexicographic (byte-order) sort, as applied by
`MustLabelValues` to the label values stored in the request context. -/
def sortStrings : List String → List String
  | [] => []
  | x :: xs => insertSorted x (sortStrings xs)

/-- Go `strings.HasPrefix s pre`. -/
def strHasPre (s pre : String) : Bool := pre.data.isPrefixOf s.data

/-- Go `regexp.QuoteMeta` special characters. -/
def isRegexpSpecial (c : Char) : Bool :=
  c == '\\' || c == '.' || c == '+' || c == '*' || c == '?' ||
  c == '(' || c == ')' || c == '|' || c == '[' || c == ']' ||
  c == Char.ofNat 123 || c == Char.ofNat 125 || c == '^' || c == '$'

/-- Go `regexp.QuoteMeta`: escape every regexp metacharacter with a
backslash. -/
def quoteMeta (s : String) : String :=
  String.mk (s.data.flatMap fun c => if isRegexpSpecial c then ['\\', c] else [c])

/-- `labelValuesToRegexpString` (routes.go:539): the `|`-alternation of the
`regexp.QuoteMeta`-escaped label values. -/
def labelValuesToRegexpString (labelValues : List String) : String :=
  String.intercalate "|" (labelValues.map quoteMeta)

/-- The pattern normalization at the top of `strictMux.Handle`
(routes.go:158-160). The Go loop
`for next := strings.TrimSuffix(sanitized, "/"); next != sanitized; sanitized = next {}`
evaluates `TrimSuffix` only once (in the init statement), so after one
iteration `sanitized = next` falsifies the condition: the loop strips at
most one trailing slash. -/
def sanitizePattern (pattern : String) : String :=
  match pattern.data.reverse with
  | c :: rest => if c == '/' then String.mk rest.reverse else pattern
  | [] => pattern

/-! ## Matchers -/

/-- `labels.MatchType` from the prometheus labels package. -/
inductive MatchType
  | matchEqual
  | matchNotEqual
  | matchRegexp
  | matchNotRegexp
deriving DecidableEq

/-- `labels.Matcher`: label name, match kind and value. -/
structure Matcher where
  name : String
  mtype : MatchType
  value : String
deriving DecidableEq

/-- The operator rendered by `labels.Matcher.String`. -/
def MatchType.toChars : MatchType → List Char
  | .matchEqual => ['=']
  | .matchNotEqual => ['!', '=']
  | .matchRegexp => ['=', '~']
  | .matchNotRegexp => ['!', '~']

/-- The characters of `labels.Matcher.String` (external prometheus
collaborator): name, operator, double-quoted value. -/
def Matcher.toChars (m : Matcher) : List Char :=
  m.name.data ++ m.mtype.toChars ++ '"' :: m.value.data ++ ['"']

/-- `labels.Matcher.String`. -/
def Matcher.mString (m : Matcher) : String := String.mk m.toChars

/-- Well-formedness under which serialization round-trips through the
selector parser: a nonempty identifier name, and a value free of quotes,
backslashes and commas (no escaping needed). -/
def Matcher.wf (m : Matcher) : Bool :=
  !m.name.data.isEmpty && m.name.data.all isNameChar && m.value.data.all okValueChar

/-! ## Serializing and parsing selector strings -/

/-- `strings.Join` on character lists with a comma separator. -/
def joinComma : List (List Char) → List Char
  | [] => []
  | [s] => s
  | s :: t :: ss => s ++ ',' :: joinComma (t :: ss)

/-- Split a character list at every comma (inverse of `joinComma` on
comma-free segments). -/
def splitComma : List Char → List (List Char)
  | [] => [[]]
  | c :: rest =>
    if c == ',' then [] :: splitComma rest
    else
      match splitComma rest with
      | [] => [[c]]
      | s :: ss => (c :: s) :: ss

/-- `matchersToString` (routes.go:769): the brace-delimited, comma-joined
rendering of a matcher list, each matcher rendered by `labels.Matcher.String`. -/
def matchersToString (ms : List Matcher) : String :=
  String.mk ('{' :: joinComma (ms.map Matcher.toChars) ++ ['}'])

/-- Parse a double-quoted value: an opening quote, characters containing no
quote and no backslash, and a closing quote ending the input. -/
def parseQuoted (cs : List Char) : Option String :=
  match cs with
  | c :: rest =>
    if c == '"' then
      let v := rest.takeWhile fun d => !(d == '"' || d == '\\')
      match rest.dropWhile (fun d => !(d == '"' || d == '\\')) with
      | [d] => if d == '"' then some (String.mk v) else none
      | _ => none
    else none
  | [] => none

/-- Parse a single `name op "value"` matcher. -/
def parseMatcherChars (cs : List Char) : Option Matcher :=
  let name := cs.takeWhile isNameChar
  let rest := cs.dropWhile isNameChar
  if name.isEmpty then none
  else
    match rest with
    | c1 :: rest1 =>
      if c1 == '=' then
        match rest1 with
        | c2 :: rest2 =>
          if c2 == '~' then
            (parseQuoted rest2).map fun v => ⟨String.mk name, .matchRegexp, v⟩
          else
            (parseQuoted rest1).map fun v => ⟨String.mk name, .matchEqual, v⟩
        | [] => none
      else if c1 == '!' then
        match rest1 with
        | c2 :: rest2 =>
          if c2 == '=' then
            (parseQuoted rest2).map fun v => ⟨String.mk name, .matchNotEqual, v⟩
          else if c2 == '~' then
            (parseQuoted rest2).map fun v => ⟨String.mk name, .matchNotRegexp, v⟩
          else none
        | [] => none
      else none
    | [] => none

/-- Sequentially parse every comma-separated segment, failing on the first
segment that does not parse (mirrors the early-return loop shape used by the
source around the external parser). -/
def mapParse : List (List Char) → Option (List Matcher)
  | [] => some []
  | s :: ss =>
    match parseMatcherChars s, mapParse ss with
    | some m, some ms => some (m :: ms)
    | _, _ => none

/-- Model of `parser.ParseMetricSelector` (external prometheus collaborator):
an optional metric name (contributing a `__name__` equality matcher), then an
optional brace-delimited comma-joined matcher list. -/
def parseMetricSelectorChars (cs : List Char) : Option (List Matcher) :=
  let name := cs.takeWhile isNameChar
  let rest := cs.dropWhile isNameChar
  match rest with
  | [] =>
    if name.isEmpty then none
    else some [⟨"__name__", .matchEqual, String.mk name⟩]
  | c :: r =>
    if c == '{' then
      match r.reverse with
      | d :: innerRev =>
        if d == '}' then
          let inner := innerRev.reverse
          let base : List Matcher :=
            if name.isEmpty then [] else [⟨"__name__", .matchEqual, String.mk name⟩]
          if inner.isEmpty then
            if name.isEmpty then none else some base
          else
            (mapParse (splitComma inner)).map fun ms => base ++ ms
        else none
      | [] => none
    else none

/-- `parser.ParseMetricSelector` on strings. -/
def parseMetricSelector (s : String) : Option (List Matcher) :=
  parseMetricSelectorChars s.data

/-! ## url.Values and requests -/

/-- `url.Values`: a map from parameter name to the list of its values,
modelled as an association list. -/
abbrev Values := List (String × List String)

/-- `v[k]`: the value list under a key (empty when absent). -/
def valuesIndex (v : Values) (k : String) : List String :=
  match v.find? (fun p => p.1 == k) with
  | some p => p.2
  | none => []

/-- `url.Values.Get`: the first value under the key, `""` when absent. -/
def valuesGet (v : Values) (k : String) : String :=
  match valuesIndex v k with
  | [] => ""
  | x :: _ => x

/-- Assign the full value list under a key. -/
def valuesSetList (v : Values) (k : String) (xs : List String) : Values :=
  if v.any (fun p => p.1 == k) then
    v.map fun p => if p.1 == k then (k, xs) else p
  else v ++ [(k, xs)]

/-- `url.Values.Set`: replace the key's values with a single value. -/
def valuesSet (v : Values) (k : String) (x : String) : Values :=
  valuesSetList v k [x]

/-- `queryParam` (routes.go:39). -/
def queryParam : String := "query"

/-- `matchersParam` (routes.go:40). -/
def matchersParam : String := "match[]"

/-- An HTTP request, at the granularity the handlers inspect it: method,
URL query values, the POST body in its form-decoded view, and whether the
raw body fails form decoding (`url.ParseQuery`/`ParseForm` error). -/
structure Request where
  method : String
  urlQuery : Values
  postForm : Values
  bodyMalformed : Bool
deriving DecidableEq

/-! ## Bypass handler -/

/-- Which chain a request is delegated to by `bypassHandler`. -/
inductive Chain
  | upstream (req : Request)
  | enforcer (req : Request)
deriving DecidableEq

/-- `extractQueryParam` (routes.go:226): the `query` URL parameter if
non-empty, otherwise — for POST requests — the `query` field of the
form-decoded body; an error when the body does not decode or no non-empty
value is found. The source restores the body after peeking, so the request
is unchanged. -/
def extractQueryParam (req : Request) : Except String String :=
  if valuesGet req.urlQuery queryParam ≠ "" then
    .ok (valuesGet req.urlQuery queryParam)
  else if req.method = "POST" then
    if req.bodyMalformed then .error "failed to parse form data"
    else if valuesGet req.postForm queryParam ≠ "" then
      .ok (valuesGet req.postForm queryParam)
    else .error "no query parameter found in URL or form data"
  else .error "no query parameter found in URL or form data"

/-- `bypassHandler` (routes.go:206): when bypass queries are configured and
the extracted query is one of them, serve via the bare upstream handler;
otherwise continue with the enforcer chain. An extraction error falls
through to normal processing. -/
def bypassHandler (bypassQueries : List String) (req : Request) : Chain :=
  if bypassQueries.length > 0 then
    match extractQueryParam req with
    | .ok qry => if qry ∈ bypassQueries then .upstream req else .enforcer req
    | .error _ => .enforcer req
  else .enforcer req

/-! ## The PromQL enforcer (modelled from the spec) -/

/-- The enforcement error kinds distinguished by `routes.query`
(`ErrIllegalLabelMatcher`, `ErrQueryParse`, `ErrEnforceLabel`). -/
inductive EnforceErr
  | illegalMatcher
  | queryParse
  | enforceLabel
deriving DecidableEq

/-- The HTTP status `routes.query` maps each enforcement error to
(routes.go:603-610). -/
def statusOf : EnforceErr → Nat
  | .illegalMatcher => 400
  | .queryParse => 400
  | .enforceLabel => 500

/-- Modelled from the spec: the matcher-list enforcement step of
`PromQLEnforcer` (enforce.go, which is not under src/). The tenant matcher
is appended to the selector's matchers; an existing matcher on the tenant
label with a conflicting value is replaced silently, or rejected with the
illegal-matcher error when `errorOnReplace` is set. -/
def enforceMatchers (errorOnReplace : Bool) (tm : Matcher) (ms : List Matcher) :
    Except EnforceErr (List Matcher) :=
  if ms.any (fun m => m.name == tm.name) then
    if (ms.any fun m =>
        m.name == tm.name && !(m.mtype == tm.mtype && m.value == tm.value)) &&
        errorOnReplace then
      .error .illegalMatcher
    else .ok ((ms.filter fun m => !(m.name == tm.name)) ++ [tm])
  else .ok (ms ++ [tm])

/-- Modelled from the spec: the serialization of an enforced selector by the
external PromQL printer — a `__name__` equality matcher at the head prints
as the metric-name prefix, the remaining matchers inside braces; a bare name
prints without braces. -/
def serializeSelector (ms : List Matcher) : String :=
  match ms with
  | ⟨nm, .matchEqual, v⟩ :: rest =>
    if nm = "__name__" then
      if rest.isEmpty then v
      else v ++ String.mk ('{' :: joinComma (rest.map Matcher.toChars) ++ ['}'])
    else matchersToString ms
  | _ => matchersToString ms

/-- Modelled from the spec: `PromQLEnforcer.Enforce` (enforce.go, not under
src/). Parse the query, walk its selectors appending the tenant matcher
(with the replace-or-fail policy of `enforceMatchers`), and serialize back.
Queries are modelled as single vector selectors; a parse failure is the
`ErrQueryParse` condition. -/
def promEnforce (errorOnReplace : Bool) (tm : Matcher) (query : String) :
    Except EnforceErr String :=
  match parseMetricSelector query with
  | none => .error .queryParse
  | some ms =>
    match enforceMatchers errorOnReplace tm ms with
    | .error e => .error e
    | .ok ms' => .ok (serializeSelector ms')

/-! ## The query handler -/

/-- The proxy-wide configuration reaching the handlers, plus the verdicts of
the external `regexp` collaborator: `compileOk v` models
`regexp.Compile(v) == nil`, and `matchesEmpty v` models
`compiledRegex.MatchString("")`. -/
structure ProxyConfig where
  label : String
  regexMatch : Bool
  errorOnReplace : Bool
  compileOk : String → Bool
  matchesEmpty : String → Bool

/-- Result of the matcher-construction block of `routes.query`. -/
inductive MatcherRes
  | ok (m : Matcher)
  | reject (status : Nat)
  | panicked
deriving DecidableEq

/-- The matcher construction of `routes.query` (routes.go:557-592).
`MustLabelValues` sorts the context values and panics on an empty set; with
more than one value, regex mode rejects with a 400 and otherwise an
alternation regexp matcher is built; with a single value, regex mode
compiles the value (400 on compile failure or when the regex matches the
empty string) and otherwise an equality matcher is built. -/
def routesQueryMatcher (cfg : ProxyConfig) (vals : List String) : MatcherRes :=
  match sortStrings vals with
  | [] => .panicked
  | v :: rest =>
    if (v :: rest).length > 1 then
      if cfg.regexMatch then .reject 400
      else .ok ⟨cfg.label, .matchRegexp, labelValuesToRegexpString (v :: rest)⟩
    else
      if cfg.regexMatch then
        if !cfg.compileOk v then .reject 400
        else if cfg.matchesEmpty v then .reject 400
        else .ok ⟨cfg.label, .matchRegexp, v⟩
      else .ok ⟨cfg.label, .matchEqual, v⟩

/-- What a handler invocation amounts to: forwarding the (rewritten) request
upstream — possibly after a status was already written — or returning
without forwarding, having written the given status (if any), or a panic
from reading an empty label-value context. -/
inductive Outcome
  | forwarded (written : Option Nat) (req : Request)
  | returned (written : Option Nat)
  | panicked
deriving DecidableEq

/-- `enforceQueryValues` (routes.go:650): when the values carry no `query`
parameter, leave them alone and report not-found; otherwise enforce the
query expression and store it back. The Bool is the `found` flag the caller
uses (the misnamed `noQuery` named return). -/
def enforceQueryValues (errorOnReplace : Bool) (tm : Matcher) (v : Values) :
    Except EnforceErr (Values × Bool) :=
  if valuesGet v queryParam = "" then .ok (v, false)
  else
    match promEnforce errorOnReplace tm (valuesGet v queryParam) with
    | .error e => .error e
    | .ok q => .ok (valuesSet v queryParam q, true)

/-- `routes.query` (routes.go:557-648): build the tenant matcher, enforce
the URL query string, then — for POST — enforce the form body (the source's
`ParseForm` error path writes a 400 but lacks a `return`, so it continues
with an empty form; the first written status wins, as in net/http), and
forward only if at least one location carried the `query` parameter. -/
def routesQuery (cfg : ProxyConfig) (vals : List String) (req : Request) : Outcome :=
  match routesQueryMatcher cfg vals with
  | .panicked => .panicked
  | .reject s => .returned (some s)
  | .ok matcher =>
    match enforceQueryValues cfg.errorOnReplace matcher req.urlQuery with
    | .error e => .returned (some (statusOf e))
    | .ok (q1, found1) =>
      let req1 : Request := { req with urlQuery := q1 }
      if req1.method = "POST" then
        let written : Option Nat := if req1.bodyMalformed then some 400 else none
        let pf : Values := if req1.bodyMalformed then [] else req1.postForm
        match enforceQueryValues cfg.errorOnReplace matcher pf with
        | .error e =>
          .returned (some (match written with | some w => w | none => statusOf e))
        | .ok (q2, found2) =>
          let req2 : Request := { req1 with postForm := q2 }
          if found1 = false ∧ found2 = false then .returned written
          else .forwarded written req2
      else
        if found1 = false then .returned none
        else .forwarded none req1

/-! ## The matcher (selector-list) handler -/

/-- `routes.newLabelMatcher` (routes.go:668): in regex mode exactly one
value is required, it must compile and must not match the empty string, and
it becomes a regexp matcher; otherwise a single value becomes an equality
matcher and several values an alternation regexp matcher. -/
def newLabelMatcher (cfg : ProxyConfig) (vals : List String) : Except String Matcher :=
  if cfg.regexMatch then
    match vals with
    | [re] =>
      if !cfg.compileOk re then .error "invalid regex"
      else if cfg.matchesEmpty re then .error "regex should not match empty string"
      else .ok ⟨cfg.label, .matchRegexp, re⟩
    | _ => .error "only one label value allowed with regex match"
  else
    match vals with
    | [v] => .ok ⟨cfg.label, .matchEqual, v⟩
    | _ => .ok ⟨cfg.label, .matchRegexp, labelValuesToRegexpString vals⟩

/-- The per-occurrence rewriting loop of `injectMatcher` (routes.go:756-763):
parse each `match[]` occurrence, append the tenant matcher and re-serialize,
failing with the first parse error. -/
def injectOcc (matcher : Matcher) : List String → Except String (List String)
  | [] => .ok []
  | m :: rest =>
    match parseMetricSelector m with
    | none => .error "selector parse error"
    | some ms =>
      match injectOcc matcher rest with
      | .error e => .error e
      | .ok rest' => .ok (matchersToString (ms ++ [matcher]) :: rest')

/-- `injectMatcher` (routes.go:748): when no `match[]` occurrence is
present, synthesize a single occurrence holding only the tenant matcher;
otherwise rewrite every occurrence through parse/append/serialize. -/
def injectMatcher (q : Values) (matcher : Matcher) : Except String Values :=
  let matchers := valuesIndex q matchersParam
  if matchers.isEmpty then
    .ok (valuesSet q matchersParam (matchersToString [matcher]))
  else
    match injectOcc matcher matchers with
    | .error e => .error e
    | .ok ms => .ok (valuesSetList q matchersParam ms)

/-- `routes.matcher` (routes.go:714): build the tenant matcher from the
sorted context values (400 on failure), inject it into the URL `match[]`
occurrences (400 on failure), and for POST also into the form body — where
both a `ParseForm` failure and an inject failure make the handler return
with no status written — then forward. -/
def routesMatcher (cfg : ProxyConfig) (vals : List String) (req : Request) : Outcome :=
  match sortStrings vals with
  | [] => .panicked
  | v :: rest =>
    match newLabelMatcher cfg (v :: rest) with
    | .error _ => .returned (some 400)
    | .ok matcher =>
      match injectMatcher req.urlQuery matcher with
      | .error _ => .returned (some 400)
      | .ok q =>
        let req1 : Request := { req with urlQuery := q }
        if req1.method = "POST" then
          if req1.bodyMalformed then .returned none
          else
            match injectMatcher req1.postForm matcher with
            | .error _ => .returned none
            | .ok q2 => .forwarded none { req1 with postForm := q2 }
        else .forwarded none req1

/-! ## The strict router -/

/-- The state of `strictMux`: the set of sanitized patterns seen, and the
patterns handed to the wrapped mux, in registration order. -/
structure StrictMux where
  seen : List String
  registered : List String
deriving DecidableEq

/-- The two error shapes of `strictMux.Handle`. -/
inductive HandleErr
  | alreadyRegistered (pattern : String)
  | shares (p : String) (sanitized : String)
deriving DecidableEq

/-- `strictMux.Handle` (routes.go:157-177): normalize the pattern (one
trailing slash stripped at most), fail if the normalized pattern was already
registered or if some previously registered `p` satisfies
`strings.HasPrefix(sanitized+"/", p+"/")`; otherwise register the handler
under both the normalized pattern and the pattern with a trailing slash.
(Go map iteration order is unspecified; the model reports the first
offending `p` in registration order.) -/
def StrictMux.handle (s : StrictMux) (pattern : String) : Except HandleErr StrictMux :=
  let sanitized := sanitizePattern pattern
  if sanitized ∈ s.seen then .error (.alreadyRegistered sanitized)
  else
    match s.seen.find? (fun p => strHasPre (sanitized ++ "/") (p ++ "/")) with
    | some p => .error (.shares p sanitized)
    | none =>
      .ok { seen := s.seen ++ [sanitized],
            registered := s.registered ++ [sanitized, sanitized ++ "/"] }

/-- A fresh strict mux. -/
def StrictMux.empty : StrictMux := ⟨[], []⟩

/-! ## The proxy error handler -/

/-- `net/http` `ResponseWriter.WriteHeader`: only the first written status
takes effect; later calls are ignored. -/
def writeHeader (w : Option Nat) (status : Nat) : Option Nat :=
  match w with
  | none => some status
  | some s => some s

/-- `routes.errorHandler` (routes.go:477): log (not modelled), write a 400
when the error is `errModifyResponseFailed` (the `errors.Is` test is the
Boolean argument), then call `WriteHeader(502)` unconditionally — which is
ignored whenever a status was already written. -/
def errorHandler (isModifyResponseFailed : Bool) (w : Option Nat) : Option Nat :=
  let w1 := if isModifyResponseFailed then writeHeader w 400 else w
  writeHeader w1 502

/-! ## Helper lemmas -/

theorem length_insertSorted (x : String) (l : List String) :
    (insertSorted x l).length = l.length + 1 := by
  induction l with
  | nil => rfl
  | cons y ys ih => simp only [insertSorted]; split <;> simp [ih]

theorem length_sortStrings (l : List String) : (sortStrings l).length = l.length := by
  induction l with
  | nil => rfl
  | cons x xs ih => simp [sortStrings, length_insertSorted, ih]

theorem mem_insertSorted {a x : String} {l : List String} :
    a ∈ insertSorted x l ↔ a = x ∨ a ∈ l := by
  induction l with
  | nil => simp [insertSorted]
  | cons y ys ih =>
    simp only [insertSorted]
    split
    · simp [List.mem_cons]
    · simp [List.mem_cons, ih]; tauto

theorem mem_sortStrings {a : String} {l : List String} : a ∈ sortStrings l ↔ a ∈ l := by
  induction l with
  | nil => simp [sortStrings]
  | cons x xs ih => simp [sortStrings, mem_insertSorted, ih]

/-! ## Claim C9 -/

/-- Claim C9 (confirmed): every upstream forwarding error handled by the proxy's
error handler yields status 502, except the distinguished
response-modification-failed condition which yields 400: the handler writes 400
first in that case, so the unconditional `WriteHeader(502)` that follows is a
no-op under net/http's first-write-wins semantics. -/
theorem errorHandler_status (isModifyFailed : Bool) :
    errorHandler isModifyFailed none = some (if isModifyFailed then 400 else 502) := by
  cases isModifyFailed <;> rfl

/-! ## Claim C4 -/

/-- Claim C4 (confirmed): with a non-empty bypass list, a request whose extracted
query exactly matches a configured bypass string is delegated unmodified to the
bare upstream handler — no label matcher is injected; a query not in the list, or
a failed extraction, falls through to the enforcement chain with the request
unchanged rather than failing. -/
theorem bypassHandler_spec (bq : List String) (req : Request) (hne : bq ≠ []) :
    (∀ q, extractQueryParam req = .ok q → q ∈ bq →
      bypassHandler bq req = .upstream req) ∧
    (∀ q, extractQueryParam req = .ok q → q ∉ bq →
      bypassHandler bq req = .enforcer req) ∧
    (∀ e, extractQueryParam req = .error e →
      bypassHandler bq req = .enforcer req) := by
  have hlen : bq.length > 0 := List.length_pos.mpr hne
  refine ⟨?_, ?_, ?_⟩
  · intro q hq hmem
    simp [bypassHandler, hlen, hq, hmem]
  · intro q hq hmem
    simp [bypassHandler, hlen, hq, hmem]
  · intro e he
    simp [bypassHandler, hlen, he]

/-- Witness for C4: a configured bypass query reaches upstream; the same query
against a different bypass list is enforced; a request without a query parameter
is enforced. -/
theorem bypassHandler_spec_witness :
    bypassHandler ["up"] ⟨"GET", [("query", ["up"])], [], false⟩ =
      .upstream ⟨"GET", [("query", ["up"])], [], false⟩ ∧
    bypassHandler ["down"] ⟨"GET", [("query", ["up"])], [], false⟩ =
      .enforcer ⟨"GET", [("query", ["up"])], [], false⟩ ∧
    bypassHandler ["up"] ⟨"GET", [], [], false⟩ = .enforcer ⟨"GET", [], [], false⟩ := by
  refine ⟨?_, ?_, ?_⟩
  · exact (bypassHandler_spec ["up"] _ (by decide)).1 "up" (by decide) (by decide)
  · exact (bypassHandler_spec ["down"] _ (by decide)).2.1 "up" (by decide) (by decide)
  · exact (bypassHandler_spec ["up"] _ (by decide)).2.2
      "no query parameter found in URL or form data" (by decide)

/-! ## Claim C2 -/

/-- Counterexample to claim C2 as stated: after registering "/a/b", registering
the parent "/a" SUCCEEDS — the shared-path check
`strings.HasPrefix(sanitized+"/", p+"/")` only catches registering a descendant
of a registered path, not an ancestor. -/
theorem strictMux_parent_succeeds :
    StrictMux.empty.handle "/a/b" = .ok ⟨["/a/b"], ["/a/b", "/a/b/"]⟩ ∧
    StrictMux.handle ⟨["/a/b"], ["/a/b", "/a/b/"]⟩ "/a" =
      .ok ⟨["/a/b", "/a"], ["/a/b", "/a/b/", "/a", "/a/"]⟩ := by decide

/-- Claim C2 (corrected): re-registering an already-registered normalized path
errors, and registering a child of an already-registered path errors; but in the
parent direction the collision is NOT caught: registering "/a" after "/a/b"
succeeds. Registering a disjoint path succeeds. -/
theorem strictMux_handle_collisions :
    (∀ (st : StrictMux) (pat : String), sanitizePattern pat ∈ st.seen →
      st.handle pat = .error (.alreadyRegistered (sanitizePattern pat))) ∧
    (∀ (st : StrictMux) (pat : String),
      (∃ p ∈ st.seen, strHasPre (sanitizePattern pat ++ "/") (p ++ "/") = true) →
      ∃ e, st.handle pat = .error e) ∧
    (StrictMux.empty.handle "/a" = .ok ⟨["/a"], ["/a", "/a/"]⟩ ∧
      StrictMux.handle ⟨["/a"], ["/a", "/a/"]⟩ "/a/b" = .error (.shares "/a" "/a/b")) ∧
    (StrictMux.handle ⟨["/a/b"], ["/a/b", "/a/b/"]⟩ "/a" =
      .ok ⟨["/a/b", "/a"], ["/a/b", "/a/b/", "/a", "/a/"]⟩) ∧
    StrictMux.handle ⟨["/a"], ["/a", "/a/"]⟩ "/b" =
      .ok ⟨["/a", "/b"], ["/a", "/a/", "/b", "/b/"]⟩ := by
  refine ⟨?_, ?_, by decide, by decide, by decide⟩
  · intro st pat h
    simp [StrictMux.handle, h]
  · intro st pat ⟨p, hp, hpre⟩
    by_cases hdup : sanitizePattern pat ∈ st.seen
    · exact ⟨.alreadyRegistered (sanitizePattern pat), by simp [StrictMux.handle, hdup]⟩
    · have hsome : (st.seen.find? fun p =>
          strHasPre (sanitizePattern pat ++ "/") (p ++ "/")).isSome := by
        rw [List.find?_isSome]
        exact ⟨p, hp, hpre⟩
      match hf : st.seen.find? fun p =>
          strHasPre (sanitizePattern pat ++ "/") (p ++ "/") with
      | some p' =>
        exact ⟨.shares p' (sanitizePattern pat), by simp [StrictMux.handle, hdup, hf]⟩
      | none => rw [hf] at hsome; exact absurd hsome (by simp)

/-- Witness for C2: a duplicate registration errors, and a child registration
errors. -/
theorem strictMux_handle_collisions_witness :
    StrictMux.handle ⟨["/a"], ["/a", "/a/"]⟩ "/a" = .error (.alreadyRegistered "/a") ∧
    ∃ e, StrictMux.handle ⟨["/x"], ["/x", "/x/"]⟩ "/x/y" = .error e := by
  constructor
  · exact strictMux_handle_collisions.1 ⟨["/a"], ["/a", "/a/"]⟩ "/a" (by decide)
  · exact strictMux_handle_collisions.2.1 ⟨["/x"], ["/x", "/x/"]⟩ "/x/y"
      ⟨"/x", by decide, by decide⟩

/-! ## Claim C10 -/

/-- Counterexample to claim C10 as stated: registering "/a//" when "/a" is
already registered does NOT succeed: its normalized form "/a/" trips the
shared-path check against "/a" (though not the exact-duplicate check). -/
theorem sanitize_one_slash_counterexample :
    StrictMux.empty.handle "/a" = .ok ⟨["/a"], ["/a", "/a/"]⟩ ∧
    StrictMux.handle ⟨["/a"], ["/a", "/a/"]⟩ "/a//" = .error (.shares "/a" "/a/") := by
  decide

/-- Claim C10 (corrected): normalization strips at most one trailing slash —
exactly one when the pattern ends in "/", none otherwise — so "/a//" normalizes
to "/a/" (not "/a"), and a fresh registration of "/a//" registers it under
"/a/" and "/a//". However, when "/a" is already registered, registering "/a//"
is rejected by the shared-path check (reported as sharing "/a"), though it is
not an exact duplicate. -/
theorem sanitize_one_slash :
    (∀ p : String,
      (p.data.getLast? = some '/' → (sanitizePattern p).data = p.data.dropLast) ∧
      (p.data.getLast? ≠ some '/' → sanitizePattern p = p)) ∧
    sanitizePattern "/a//" = "/a/" ∧
    StrictMux.empty.handle "/a//" = .ok ⟨["/a/"], ["/a/", "/a//"]⟩ ∧
    StrictMux.handle ⟨["/a"], ["/a", "/a/"]⟩ "/a//" = .error (.shares "/a" "/a/") := by
  refine ⟨?_, by decide, by decide, by decide⟩
  intro p
  have hp : p.data = p.data.reverse.reverse := (List.reverse_reverse _).symm
  constructor
  · intro hlast
    cases hr : p.data.reverse with
    | nil =>
      rw [List.reverse_eq_nil_iff] at hr
      simp [hr] at hlast
    | cons c rest =>
      have hc : p.data.getLast? = some c := by
        rw [← List.head?_reverse, hr]; rfl
      rw [hc] at hlast
      obtain rfl : c = '/' := Option.some_inj.mp hlast
      have hdata : p.data = rest.reverse ++ ['/'] := by rw [hp, hr]; simp
      simp [sanitizePattern, hr, hdata]
  · intro hlast
    cases hr : p.data.reverse with
    | nil => simp [sanitizePattern, hr]
    | cons c rest =>
      have hc : p.data.getLast? = some c := by
        rw [← List.head?_reverse, hr]; rfl
      have hcne : ¬(c == '/') = true := by
        intro h
        exact hlast (by rw [hc]; congr 1; exact eq_of_beq h)
      simp [sanitizePattern, hr, hcne]

/-- Witness for C10 at concrete patterns: one trailing slash is stripped from
"/x/", and "/x" is untouched. -/
theorem sanitize_one_slash_witness :
    (sanitizePattern "/x/").data = "/x/".data.dropLast ∧ sanitizePattern "/x" = "/x" :=
  ⟨(sanitize_one_slash.1 "/x/").1 (by decide), (sanitize_one_slash.1 "/x").2 (by decide)⟩

/-! ## Claim C1 -/

/-- Counterexample to claim C1 as stated: with two identities and regex mode
DISABLED the request is not rejected with 400 — the alternation-regexp matcher
is built and the request is forwarded with it injected; and with regex mode
ENABLED the handler rejects instead of building the alternation matcher. -/
theorem query_multiValue_counterexample :
    routesQueryMatcher ⟨"tenant", false, false, fun _ => true, fun _ => false⟩
        ["team-a", "team-b"] = .ok ⟨"tenant", .matchRegexp, "team-a|team-b"⟩ ∧
    routesQuery ⟨"tenant", false, false, fun _ => true, fun _ => false⟩
        ["team-a", "team-b"] ⟨"GET", [("query", ["up"])], [], false⟩ =
      .forwarded none
        ⟨"GET", [("query", ["up\x7btenant=~\"team-a|team-b\"\x7d"])], [], false⟩ ∧
    routesQueryMatcher ⟨"tenant", true, false, fun _ => true, fun _ => false⟩
        ["team-a", "team-b"] = .reject 400 := by decide

/-- Claim C1 (corrected): on a query-expression endpoint whose tenant-identity
set has more than one member, the request is rejected with 400 when regex mode
is ENABLED; when regex mode is DISABLED the matcher built for injection is a
regexp matcher whose value is the |-alternation of the regex-escaped (sorted)
identities — the polarity opposite to the claim. -/
theorem query_multiValue (cfg : ProxyConfig) (vals : List String) (req : Request)
    (hlen : vals.length > 1) :
    (cfg.regexMatch = true → routesQuery cfg vals req = .returned (some 400)) ∧
    (cfg.regexMatch = false →
      routesQueryMatcher cfg vals =
        .ok ⟨cfg.label, .matchRegexp, labelValuesToRegexpString (sortStrings vals)⟩) := by
  have hslen : (sortStrings vals).length > 1 := by rw [length_sortStrings]; exact hlen
  cases hs : sortStrings vals with
  | nil => rw [hs] at hslen; simp at hslen
  | cons v rest =>
    rw [hs] at hslen
    cases rest with
    | nil => simp at hslen
    | cons r rs =>
      constructor
      · intro hr
        simp [routesQuery, routesQueryMatcher, hs, hr]
      · intro hr
        simp [routesQueryMatcher, hs, hr]

/-- Witness for C1 at a concrete identity set. -/
theorem query_multiValue_witness :
    routesQuery ⟨"tenant", true, false, fun _ => true, fun _ => false⟩ ["a", "b"]
      ⟨"GET", [("query", ["up"])], [], false⟩ = .returned (some 400) ∧
    routesQueryMatcher ⟨"tenant", false, false, fun _ => true, fun _ => false⟩ ["a", "b"] =
      .ok ⟨"tenant", .matchRegexp, labelValuesToRegexpString (sortStrings ["a", "b"])⟩ := by
  constructor
  · exact (query_multiValue _ ["a", "b"] _ (by decide)).1 rfl
  · exact (query_multiValue ⟨"tenant", false, false, fun _ => true, fun _ => false⟩
      ["a", "b"] ⟨"GET", [("query", ["up"])], [], false⟩ (by decide)).2 rfl

/-! ## Claim C6 -/

/-- Claim C6 (confirmed): with regex mode enabled and a single tenant identity,
the value is compiled as a regular expression and the request is rejected with
400 when compilation fails or when the compiled regex matches the empty string;
and an identity value matching the empty string always leads to a 400 rejection
regardless of how many identities are present, on both the query handler and
the selector-list handler. -/
theorem query_regexEmpty (cfg : ProxyConfig) (req : Request) (hr : cfg.regexMatch = true) :
    (∀ v, cfg.compileOk v = false → routesQuery cfg [v] req = .returned (some 400)) ∧
    (∀ v, cfg.matchesEmpty v = true → routesQuery cfg [v] req = .returned (some 400)) ∧
    (∀ vals, vals ≠ [] → (∃ w ∈ vals, cfg.matchesEmpty w = true) →
      routesQuery cfg vals req = .returned (some 400) ∧
      routesMatcher cfg vals req = .returned (some 400)) := by
  have hone : ∀ v : String, sortStrings [v] = [v] := fun _ => rfl
  refine ⟨?_, ?_, ?_⟩
  · intro v hc
    simp [routesQuery, routesQueryMatcher, hone v, hr, hc]
  · intro v hm
    cases hc : cfg.compileOk v with
    | false => simp [routesQuery, routesQueryMatcher, hone v, hr, hc]
    | true => simp [routesQuery, routesQueryMatcher, hone v, hr, hc, hm]
  · intro vals hne ⟨w, hw, hwm⟩
    cases hs : sortStrings vals with
    | nil =>
      have : vals.length = 0 := by rw [← length_sortStrings, hs]; rfl
      exact absurd (List.length_eq_zero.mp this) hne
    | cons v rest =>
      cases rest with
      | nil =>
        have hwv : w = v := by
          have := mem_sortStrings.mpr hw
          rw [hs] at this
          simpa using this
        subst hwv
        constructor
        · cases hc : cfg.compileOk w with
          | false => simp [routesQuery, routesQueryMatcher, hs, hr, hc]
          | true => simp [routesQuery, routesQueryMatcher, hs, hr, hc, hwm]
        · cases hc : cfg.compileOk w with
          | false => simp [routesMatcher, newLabelMatcher, hs, hr, hc]
          | true => simp [routesMatcher, newLabelMatcher, hs, hr, hc, hwm]
      | cons r rs =>
        constructor
        · simp [routesQuery, routesQueryMatcher, hs, hr]
        · simp [routesMatcher, newLabelMatcher, hs, hr]

/-- Witness for C6: a concrete non-compiling value and a concrete
empty-matching value are rejected with 400 on both handlers. -/
theorem query_regexEmpty_witness :
    routesQuery ⟨"tenant", true, false, fun _ => false, fun _ => false⟩ ["("]
      ⟨"GET", [("query", ["up"])], [], false⟩ = .returned (some 400) ∧
    routesQuery ⟨"tenant", true, false, fun _ => true, fun _ => true⟩ ["a*"]
      ⟨"GET", [("query", ["up"])], [], false⟩ = .returned (some 400) ∧
    routesMatcher ⟨"tenant", true, false, fun _ => true, fun _ => true⟩ ["a*", "b"]
      ⟨"GET", [], [], false⟩ = .returned (some 400) := by
  refine ⟨?_, ?_, ?_⟩
  · exact (query_regexEmpty _ _ rfl).1 "(" rfl
  · exact (query_regexEmpty _ _ rfl).2.1 "a*" rfl
  · exact ((query_regexEmpty ⟨"tenant", true, false, fun _ => true, fun _ => true⟩
      ⟨"GET", [], [], false⟩ rfl).2.2 ["a*", "b"] (by decide)
      ⟨"a*", by decide, rfl⟩).2

/-! ## Parser round-trip lemmas -/

theorem takeWhile_append_all (p : Char → Bool) (l₁ : List Char) (c : Char)
    (l₂ : List Char) (h1 : ∀ a ∈ l₁, p a = true) (h2 : p c = false) :
    (l₁ ++ c :: l₂).takeWhile p = l₁ ∧ (l₁ ++ c :: l₂).dropWhile p = c :: l₂ := by
  induction l₁ with
  | nil => simp [List.takeWhile_cons, List.dropWhile_cons, h2]
  | cons a as ih =>
    have ha : p a = true := h1 a (by simp)
    have ih' := ih fun b hb => h1 b (by simp [hb])
    simp [List.takeWhile_cons, List.dropWhile_cons, ha, ih'.1, ih'.2]

theorem splitComma_ne_nil (cs : List Char) : splitComma cs ≠ [] := by
  cases cs with
  | nil => simp [splitComma]
  | cons c rest =>
    simp only [splitComma]
    split
    · simp
    · split <;> simp

theorem splitComma_append (x ys : List Char) (hx : ∀ c ∈ x, c ≠ ',') :
    splitComma (x ++ ',' :: ys) = x :: splitComma ys := by
  induction x with
  | nil => simp [splitComma]
  | cons a as ih =>
    have ha : (a == ',') = false := by
      simp only [beq_eq_false_iff_ne, ne_eq]
      exact hx a (by simp)
    have ih' := ih fun c hc => hx c (by simp [hc])
    simp [splitComma, ha, ih']

theorem splitComma_no_comma (x : List Char) (hx : ∀ c ∈ x, c ≠ ',') :
    splitComma x = [x] := by
  induction x with
  | nil => rfl
  | cons a as ih =>
    have ha : (a == ',') = false := by
      simp only [beq_eq_false_iff_ne, ne_eq]
      exact hx a (by simp)
    have ih' := ih fun c hc => hx c (by simp [hc])
    simp [splitComma, ha, ih']

theorem splitComma_joinComma (xs : List (List Char)) (hne : xs ≠ [])
    (hc : ∀ x ∈ xs, ∀ c ∈ x, c ≠ ',') :
    splitComma (joinComma xs) = xs := by
  induction xs with
  | nil => exact absurd rfl hne
  | cons x t ih =>
    cases t with
    | nil => exact splitComma_no_comma x (hc x (by simp))
    | cons y ys =>
      rw [show joinComma (x :: y :: ys) = x ++ ',' :: joinComma (y :: ys) from rfl]
      rw [splitComma_append x _ (hc x (by simp))]
      rw [ih (by simp) fun z hz c hcz => hc z (by simp [hz]) c hcz]

theorem joinComma_cons_ne_nil (x : List Char) (t : List (List Char)) (hx : x ≠ []) :
    joinComma (x :: t) ≠ [] := by
  cases t with
  | nil => simpa [joinComma] using hx
  | cons y ys => simp [joinComma]

theorem splitComma_mem_no_comma (cs : List Char) :
    ∀ s ∈ splitComma cs, ∀ c ∈ s, c ≠ ',' := by
  induction cs with
  | nil =>
    intro s hs
    simp [splitComma] at hs
    subst hs
    simp
  | cons a rest ih =>
    intro s hs c hc
    by_cases ha : (a == ',') = true
    · simp only [splitComma, ha, if_true] at hs
      rcases List.mem_cons.mp hs with rfl | hs'
      · simp at hc
      · exact ih s hs' c hc
    · have ha' : (a == ',') = false := by simpa using ha
      obtain ⟨s0, ss, hsp⟩ : ∃ s0 ss, splitComma rest = s0 :: ss := by
        cases h : splitComma rest with
        | nil => exact absurd h (splitComma_ne_nil rest)
        | cons u v => exact ⟨u, v, rfl⟩
      simp only [splitComma, ha', Bool.false_eq_true, if_false, hsp] at hs
      rcases List.mem_cons.mp hs with rfl | hs'
      · rcases List.mem_cons.mp hc with rfl | hc'
        · exact fun h => ha (by simp [h])
        · exact ih s0 (by simp [hsp]) c hc'
      · exact ih s (by simp [hsp, hs']) c hc

theorem string_mk_data (s : String) : String.mk s.data = s := rfl

theorem isNameChar_okValue {c : Char} (h : isNameChar c = true) : okValueChar c = true := by
  have h1 : ¬c = '"' := by rintro rfl; exact absurd h (by decide)
  have h2 : ¬c = '\\' := by rintro rfl; exact absurd h (by decide)
  have h3 : ¬c = ',' := by rintro rfl; exact absurd h (by decide)
  simp [okValueChar, h1, h2, h3]

theorem isNameChar_ne_comma {c : Char} (h : isNameChar c = true) : c ≠ ',' := by
  rintro rfl; exact absurd h (by decide)

theorem okValueChar_ne_comma {c : Char} (h : okValueChar c = true) : c ≠ ',' := by
  rintro rfl; exact absurd h (by decide)

theorem parseQuoted_roundtrip (v : List Char)
    (hv : ∀ c ∈ v, (c == '"') = false ∧ (c == '\\') = false) :
    parseQuoted ('"' :: (v ++ ['"'])) = some (String.mk v) := by
  have h := takeWhile_append_all (fun d => !(d == '"' || d == '\\')) v '"' []
    (fun a ha => by simp [(hv a ha).1, (hv a ha).2]) (by decide)
  simp only [parseQuoted, beq_self_eq_true, if_true]
  rw [h.1, h.2]
  rfl

theorem parseMatcherChars_roundtrip (m : Matcher) (hm : m.wf = true) :
    parseMatcherChars m.toChars = some m := by
  obtain ⟨nm, ty, vl⟩ := m
  simp only [Matcher.wf, Bool.and_eq_true] at hm
  obtain ⟨⟨hne, hname⟩, hval⟩ := hm
  have hn1 : ∀ a ∈ nm.data, isNameChar a = true := by simpa using hname
  have hv2 : ∀ c ∈ vl.data, (c == '"') = false ∧ (c == '\\') = false := by
    intro c hc
    have h : okValueChar c = true := by
      have := (List.all_eq_true.mp hval) c hc
      simpa using this
    simp only [okValueChar, Bool.not_eq_eq_eq_not, Bool.not_true, Bool.or_eq_false_iff] at h
    exact ⟨h.1.1, h.1.2⟩
  have hq := parseQuoted_roundtrip vl.data hv2
  have hnE : nm.data.isEmpty = false := by
    cases h : nm.data with
    | nil => rw [h] at hne; simp at hne
    | cons a b => rfl
  cases ty
  case matchEqual =>
    have hsh : (Matcher.mk nm .matchEqual vl).toChars
        = nm.data ++ '=' :: ('"' :: (vl.data ++ ['"'])) := by
      simp [Matcher.toChars, MatchType.toChars]
    have ht := takeWhile_append_all isNameChar nm.data '='
      ('"' :: (vl.data ++ ['"'])) hn1 (by decide)
    rw [hsh]
    simp [parseMatcherChars, ht.1, ht.2, hnE, hq, string_mk_data]
  case matchRegexp =>
    have hsh : (Matcher.mk nm .matchRegexp vl).toChars
        = nm.data ++ '=' :: ('~' :: ('"' :: (vl.data ++ ['"']))) := by
      simp [Matcher.toChars, MatchType.toChars]
    have ht := takeWhile_append_all isNameChar nm.data '='
      ('~' :: ('"' :: (vl.data ++ ['"']))) hn1 (by decide)
    rw [hsh]
    simp [parseMatcherChars, ht.1, ht.2, hnE, hq, string_mk_data]
  case matchNotEqual =>
    have hsh : (Matcher.mk nm .matchNotEqual vl).toChars
        = nm.data ++ '!' :: ('=' :: ('"' :: (vl.data ++ ['"']))) := by
      simp [Matcher.toChars, MatchType.toChars]
    have ht := takeWhile_append_all isNameChar nm.data '!'
      ('=' :: ('"' :: (vl.data ++ ['"']))) hn1 (by decide)
    rw [hsh]
    simp [parseMatcherChars, ht.1, ht.2, hnE, hq, string_mk_data]
  case matchNotRegexp =>
    have hsh : (Matcher.mk nm .matchNotRegexp vl).toChars
        = nm.data ++ '!' :: ('~' :: ('"' :: (vl.data ++ ['"']))) := by
      simp [Matcher.toChars, MatchType.toChars]
    have ht := takeWhile_append_all isNameChar nm.data '!'
      ('~' :: ('"' :: (vl.data ++ ['"']))) hn1 (by decide)
    rw [hsh]
    simp [parseMatcherChars, ht.1, ht.2, hnE, hq, string_mk_data]

theorem toChars_no_comma (m : Matcher) (hm : m.wf = true) :
    ∀ c ∈ m.toChars, c ≠ ',' := by
  obtain ⟨nm, ty, vl⟩ := m
  simp only [Matcher.wf, Bool.and_eq_true] at hm
  obtain ⟨⟨hne, hname⟩, hval⟩ := hm
  intro c hc
  have hsh : (Matcher.mk nm ty vl).toChars
      = nm.data ++ (ty.toChars ++ ('"' :: (vl.data ++ ['"']))) := by
    simp [Matcher.toChars]
  rw [hsh] at hc
  rcases List.mem_append.mp hc with h | h
  · exact isNameChar_ne_comma (by simpa using (List.all_eq_true.mp hname) c h)
  rcases List.mem_append.mp h with h2 | h2
  · cases ty <;> simp [MatchType.toChars] at h2
    · subst h2; decide
    · rcases h2 with rfl | rfl <;> decide
    · rcases h2 with rfl | rfl <;> decide
    · rcases h2 with rfl | rfl <;> decide
  rcases List.mem_cons.mp h2 with rfl | h3
  · decide
  rcases List.mem_append.mp h3 with h4 | h4
  · exact okValueChar_ne_comma (by simpa using (List.all_eq_true.mp hval) c h4)
  · rcases List.mem_singleton.mp h4 with rfl
    decide

theorem toChars_ne_nil (m : Matcher) : m.toChars ≠ [] := by
  obtain ⟨nm, ty, vl⟩ := m
  simp [Matcher.toChars]

theorem mapParse_map (ms : List Matcher) (h : ∀ m ∈ ms, m.wf = true) :
    mapParse (ms.map Matcher.toChars) = some ms := by
  induction ms with
  | nil => rfl
  | cons m t ih =>
    have hm := parseMatcherChars_roundtrip m (h m (by simp))
    have ht := ih fun x hx => h x (by simp [hx])
    simp [mapParse, hm, ht]

theorem parseMetricSelector_matchersToString (ms : List Matcher) (hne : ms ≠ [])
    (hw : ∀ m ∈ ms, m.wf = true) :
    parseMetricSelector (matchersToString ms) = some ms := by
  obtain ⟨m0, t, rfl⟩ : ∃ m0 t, ms = m0 :: t := by
    cases ms with
    | nil => exact absurd rfl hne
    | cons a b => exact ⟨a, b, rfl⟩
  have hdata : (matchersToString (m0 :: t)).data
      = '{' :: (joinComma ((m0 :: t).map Matcher.toChars) ++ ['}']) := by
    simp [matchersToString]
  have hjne : joinComma ((m0 :: t).map Matcher.toChars) ≠ [] := by
    rw [List.map_cons]
    exact joinComma_cons_ne_nil _ _ (toChars_ne_nil m0)
  have hcfree : ∀ x ∈ (m0 :: t).map Matcher.toChars, ∀ c ∈ x, c ≠ ',' := by
    intro x hx
    obtain ⟨m, hm, rfl⟩ := List.mem_map.mp hx
    exact toChars_no_comma m (hw m hm)
  have hie : (joinComma ((m0 :: t).map Matcher.toChars)).isEmpty = false := by
    cases h : joinComma ((m0 :: t).map Matcher.toChars) with
    | nil => exact absurd h hjne
    | cons a b => rfl
  rw [parseMetricSelector, hdata]
  have hdw : ('{' :: (joinComma ((m0 :: t).map Matcher.toChars) ++ ['}'])).dropWhile
      isNameChar = '{' :: (joinComma ((m0 :: t).map Matcher.toChars) ++ ['}']) := by
    rw [List.dropWhile_cons, if_neg (by decide)]
  have htw : ('{' :: (joinComma ((m0 :: t).map Matcher.toChars) ++ ['}'])).takeWhile
      isNameChar = [] := by
    rw [List.takeWhile_cons, if_neg (by decide)]
  rw [show parseMetricSelectorChars
      ('{' :: (joinComma ((m0 :: t).map Matcher.toChars) ++ ['}']))
      = parseMetricSelectorChars
      ('{' :: (joinComma ((m0 :: t).map Matcher.toChars) ++ ['}'])) from rfl]
  simp only [parseMetricSelectorChars, hdw, htw]
  simp only [beq_self_eq_true, if_true, List.reverse_append, List.reverse_cons,
    List.reverse_nil, List.nil_append, List.singleton_append, List.cons_append]
  simp only [List.reverse_reverse, hie, Bool.false_eq_true, if_false,
    splitComma_joinComma _ (by simp) hcfree, mapParse_map (m0 :: t) hw]
  simp [List.isEmpty_nil]

theorem parseQuoted_wf (cs : List Char) (v : String) (hcs : ∀ c ∈ cs, c ≠ ',')
    (h : parseQuoted cs = some v) : v.data.all okValueChar = true := by
  cases cs with
  | nil => simp [parseQuoted] at h
  | cons c rest =>
    have hrest : ∀ a ∈ rest, a ≠ ',' := fun a ha => hcs a (List.mem_cons_of_mem _ ha)
    by_cases hc : (c == '"') = true
    · simp only [parseQuoted, hc, if_true] at h
      cases hdw : rest.dropWhile (fun d => !(d == '"' || d == '\\')) with
      | nil => rw [hdw] at h; simp at h
      | cons d tail =>
        cases tail with
        | nil =>
          rw [hdw] at h
          by_cases hd : (d == '"') = true
          · simp only [hd, if_true, Option.some_inj] at h
            subst h
            rw [List.all_eq_true]
            intro a ha
            have hp := List.mem_takeWhile_imp ha
            have hmem : a ∈ rest := (List.takeWhile_sublist _).subset ha
            have hnc : a ≠ ',' := hrest a hmem
            simp only [Bool.not_eq_eq_eq_not, Bool.not_true, Bool.or_eq_false_iff] at hp
            simp [okValueChar, hp.1, hp.2, hnc]
          · simp only [hd, Bool.false_eq_true, if_false] at h
            simp at h
        | cons e tail2 => rw [hdw] at h; simp at h
    · simp only [parseQuoted, hc, Bool.false_eq_true, if_false] at h
      simp at h

theorem parseMatcherChars_wf (cs : List Char) (m : Matcher) (hcs : ∀ c ∈ cs, c ≠ ',')
    (h : parseMatcherChars cs = some m) : m.wf = true := by
  cases hie : (cs.takeWhile isNameChar).isEmpty with
  | true => simp [parseMatcherChars, hie] at h
  | false =>
    have hwf : ∀ (X : List Char), (∀ c ∈ X, c ≠ ',') → ∀ (v : String) (ty : MatchType),
        parseQuoted X = some v →
        (Matcher.mk (String.mk (cs.takeWhile isNameChar)) ty v).wf = true := by
      intro X hX v ty hv
      simp only [Matcher.wf, Bool.and_eq_true]
      refine ⟨⟨?_, ?_⟩, parseQuoted_wf X v hX hv⟩
      · simp [hie]
      · rw [List.all_eq_true]
        intro a ha
        exact List.mem_takeWhile_imp ha
    have hdsub : ∀ c ∈ cs.dropWhile isNameChar, c ≠ ',' :=
      fun c hc => hcs c ((List.dropWhile_sublist _).subset hc)
    cases hdw : cs.dropWhile isNameChar with
    | nil => simp [parseMatcherChars, hie, hdw] at h
    | cons c1 rest1 =>
      have hrest1 : ∀ c ∈ rest1, c ≠ ',' :=
        fun c hc => hdsub c (hdw ▸ List.mem_cons_of_mem _ hc)
      by_cases hc1 : (c1 == '=') = true
      · cases rest1 with
        | nil => simp [parseMatcherChars, hie, hdw, hc1] at h
        | cons c2 rest2 =>
          have hrest2 : ∀ c ∈ rest2, c ≠ ',' :=
            fun c hc => hrest1 c (List.mem_cons_of_mem _ hc)
          by_cases hc2 : (c2 == '~') = true
          · simp only [parseMatcherChars, hie, Bool.false_eq_true, if_false, hdw, hc1,
              if_true, hc2, Option.map_eq_some'] at h
            obtain ⟨v, hv, rfl⟩ := h
            exact hwf rest2 hrest2 v _ hv
          · simp only [parseMatcherChars, hie, Bool.false_eq_true, if_false, hdw, hc1,
              if_true, hc2, Option.map_eq_some'] at h
            obtain ⟨v, hv, rfl⟩ := h
            exact hwf (c2 :: rest2) (fun c hc => hrest1 c hc) v _ hv
      · by_cases hb1 : (c1 == '!') = true
        · cases rest1 with
          | nil => simp [parseMatcherChars, hie, hdw, hc1, hb1] at h
          | cons c2 rest2 =>
            have hrest2 : ∀ c ∈ rest2, c ≠ ',' :=
              fun c hc => hrest1 c (List.mem_cons_of_mem _ hc)
            by_cases hc2 : (c2 == '=') = true
            · simp only [parseMatcherChars, hie, Bool.false_eq_true, if_false, hdw, hc1,
                hb1, if_true, hc2, Option.map_eq_some'] at h
              obtain ⟨v, hv, rfl⟩ := h
              exact hwf rest2 hrest2 v _ hv
            · by_cases hc3 : (c2 == '~') = true
              · simp only [parseMatcherChars, hie, Bool.false_eq_true, if_false, hdw,
                  hc1, hb1, if_true, hc2, hc3, Option.map_eq_some'] at h
                obtain ⟨v, hv, rfl⟩ := h
                exact hwf rest2 hrest2 v _ hv
              · simp [parseMatcherChars, hie, hdw, hc1, hb1, hc2, hc3] at h
        · simp [parseMatcherChars, hie, hdw, hc1, hb1] at h

theorem mapParse_mem (segs : List (List Char)) (ms : List Matcher)
    (h : mapParse segs = some ms) :
    ∀ m ∈ ms, ∃ s ∈ segs, parseMatcherChars s = some m := by
  induction segs generalizing ms with
  | nil =>
    simp only [mapParse, Option.some_inj] at h
    subst h
    simp
  | cons s ss ih =>
    cases hp : parseMatcherChars s with
    | none => simp [mapParse, hp] at h
    | some m0 =>
      cases hq : mapParse ss with
      | none => simp [mapParse, hp, hq] at h
      | some t =>
        simp only [mapParse, hp, hq, Option.some_inj] at h
        subst h
        intro m hm
        rcases List.mem_cons.mp hm with rfl | hm'
        · exact ⟨s, by simp, hp⟩
        · obtain ⟨s', hs', hps'⟩ := ih t hq m hm'
          exact ⟨s', by simp [hs'], hps'⟩

theorem parseMetricSelector_wf (s : String) (ms : List Matcher)
    (h : parseMetricSelector s = some ms) : ∀ m ∈ ms, m.wf = true := by
  rw [parseMetricSelector] at h
  have hbase : ∀ (_ : (s.data.takeWhile isNameChar).isEmpty = false),
      (Matcher.mk "__name__" .matchEqual (String.mk (s.data.takeWhile isNameChar))).wf
        = true := by
    intro _
    simp only [Matcher.wf, Bool.and_eq_true]
    refine ⟨⟨by decide, by decide⟩, ?_⟩
    rw [List.all_eq_true]
    intro a ha
    exact isNameChar_okValue (List.mem_takeWhile_imp ha)
  cases hdw : s.data.dropWhile isNameChar with
  | nil =>
    cases hie : (s.data.takeWhile isNameChar).isEmpty with
    | true => simp [parseMetricSelectorChars, hdw, hie] at h
    | false =>
      simp only [parseMetricSelectorChars, hdw, hie, Bool.false_eq_true, if_false,
        Option.some_inj] at h
      subst h
      intro m hm
      rcases List.mem_singleton.mp hm with rfl
      exact hbase hie
  | cons c r =>
    by_cases hc : (c == '{') = true
    · cases hrev : r.reverse with
      | nil => simp [parseMetricSelectorChars, hdw, hc, hrev] at h
      | cons d innerRev =>
        by_cases hd : (d == '}') = true
        · cases hin : innerRev.reverse.isEmpty with
          | true =>
            cases hie : (s.data.takeWhile isNameChar).isEmpty with
            | true => simp [parseMetricSelectorChars, hdw, hc, hrev, hd, hin, hie] at h
            | false =>
              simp only [parseMetricSelectorChars, hdw, hc, if_true, hrev, hd, hin,
                hie, Bool.false_eq_true, if_false, Option.some_inj] at h
              subst h
              intro m hm
              rcases List.mem_singleton.mp hm with rfl
              exact hbase hie
          | false =>
            simp only [parseMetricSelectorChars, hdw, hc, if_true, hrev, hd, hin,
              Bool.false_eq_true, if_false, Option.map_eq_some'] at h
            obtain ⟨ms', hms', rfl⟩ := h
            intro m hm
            rcases List.mem_append.mp hm with hmb | hmm
            · cases hie : (s.data.takeWhile isNameChar).isEmpty with
              | true => rw [hie] at hmb; simp at hmb
              | false =>
                rw [hie] at hmb
                simp only [Bool.false_eq_true, if_false] at hmb
                rcases List.mem_singleton.mp hmb with rfl
                exact hbase hie
            · obtain ⟨seg, hseg, hpseg⟩ := mapParse_mem _ ms' hms' m hmm
              exact parseMatcherChars_wf seg m
                (splitComma_mem_no_comma _ seg hseg) hpseg
        · simp [parseMetricSelectorChars, hdw, hc, hrev, hd] at h
    · simp [parseMetricSelectorChars, hdw, hc] at h

theorem valuesIndex_setList (q : Values) (k : String) (xs : List String) :
    valuesIndex (valuesSetList q k xs) k = xs := by
  induction q with
  | nil => simp [valuesSetList, valuesIndex]
  | cons p ps ih =>
    by_cases hp : (p.1 == k) = true
    · have hany : ((p :: ps).any fun r => r.1 == k) = true := by
        simp [List.any_cons, hp]
      have h1 : valuesSetList (p :: ps) k xs
          = (k, xs) :: ps.map (fun r => if r.1 == k then (k, xs) else r) := by
        simp only [valuesSetList]
        rw [if_pos hany, List.map_cons, if_pos hp]
      rw [h1]
      simp only [valuesIndex]
      rw [List.find?_cons_of_pos _ (by simp)]
    · cases hps : ps.any (fun r => r.1 == k) with
      | true =>
        have hany : ((p :: ps).any fun r => r.1 == k) = true := by
          simp [List.any_cons, hps]
        have h1 : valuesSetList (p :: ps) k xs
            = p :: ps.map (fun r => if r.1 == k then (k, xs) else r) := by
          simp only [valuesSetList]
          rw [if_pos hany, List.map_cons, if_neg hp]
        have ih' := ih
        simp only [valuesSetList, hps, if_true] at ih'
        have hpf : (p.1 == k) = false := by simpa using hp
        rw [h1]
        simp only [valuesIndex, List.find?_cons, hpf]
        simpa only [valuesIndex] using ih'
      | false =>
        have hany : ((p :: ps).any fun r => r.1 == k) = false := by
          simp only [List.any_cons, hps, Bool.or_false]
          simpa using hp
        have h1 : valuesSetList (p :: ps) k xs = p :: (ps ++ [(k, xs)]) := by
          simp only [valuesSetList]
          rw [if_neg (by simp [hany]), List.cons_append]
        have ih' := ih
        simp only [valuesSetList, hps, Bool.false_eq_true, if_false] at ih'
        have hpf : (p.1 == k) = false := by simpa using hp
        rw [h1]
        simp only [valuesIndex, List.find?_cons, hpf]
        simpa only [valuesIndex] using ih'

theorem injectOcc_spec (tm : Matcher) (occ out : List String)
    (hw : tm.wf = true) (h : injectOcc tm occ = .ok out) :
    List.Forall₂ (fun o o' => ∀ ms, parseMetricSelector o = some ms →
      parseMetricSelector o' = some (ms ++ [tm])) occ out := by
  induction occ generalizing out with
  | nil =>
    simp only [injectOcc] at h
    cases h
    constructor
  | cons o os ih =>
    cases hp : parseMetricSelector o with
    | none => simp [injectOcc, hp] at h
    | some ms0 =>
      cases hr : injectOcc tm os with
      | error e => simp [injectOcc, hp, hr] at h
      | ok rest' =>
        simp only [injectOcc, hp, hr] at h
        cases h
        constructor
        · intro ms hms
          rw [hp] at hms
          obtain rfl : ms0 = ms := Option.some_inj.mp hms
          apply parseMetricSelector_matchersToString
          · simp
          · intro m hm
            rcases List.mem_append.mp hm with hm' | hm'
            · exact parseMetricSelector_wf o ms0 hp m hm'
            · rcases List.mem_singleton.mp hm' with rfl
              exact hw
        · exact ih rest' hr

/-! ## Claim C5 -/

/-- Claim C5 (confirmed): for selector-list requests, when the repeated
`match[]` parameter is absent, exactly one occurrence is synthesized holding
only the tenant matcher, serialized as a brace-delimited, comma-joined matcher
list, and it parses back to exactly the tenant matcher; when occurrences are
present and injection succeeds, each original occurrence that parses to some
matcher list is rewritten to a selector that parses to exactly the original
matchers plus the tenant matcher appended. -/
theorem injectMatcher_roundtrip (q : Values) (tm : Matcher) (hw : tm.wf = true) :
    (valuesIndex q matchersParam = [] →
      injectMatcher q tm = .ok (valuesSet q matchersParam (matchersToString [tm])) ∧
      parseMetricSelector (matchersToString [tm]) = some [tm] ∧
      matchersToString [tm] = String.mk ('{' :: (tm.toChars ++ ['}']))) ∧
    (∀ out, injectMatcher q tm = .ok out → valuesIndex q matchersParam ≠ [] →
      List.Forall₂ (fun o o' => ∀ ms, parseMetricSelector o = some ms →
          parseMetricSelector o' = some (ms ++ [tm]))
        (valuesIndex q matchersParam) (valuesIndex out matchersParam)) := by
  constructor
  · intro habs
    refine ⟨by simp [injectMatcher, habs], ?_, rfl⟩
    apply parseMetricSelector_matchersToString
    · simp
    · intro m hm
      rcases List.mem_singleton.mp hm with rfl
      exact hw
  · intro out hout hne
    have hieF : (valuesIndex q matchersParam).isEmpty = false := by
      cases hv : valuesIndex q matchersParam with
      | nil => exact absurd hv hne
      | cons a b => rfl
    cases hio : injectOcc tm (valuesIndex q matchersParam) with
    | error e => simp [injectMatcher, hieF, hio] at hout
    | ok lst =>
      simp only [injectMatcher, hieF, Bool.false_eq_true, if_false, hio] at hout
      cases hout
      rw [valuesIndex_setList]
      exact injectOcc_spec tm _ lst hw hio

/-- Witness for C5 at a concrete request: an absent parameter yields the
synthesized single-occurrence selector, and an existing occurrence `up` is
rewritten to a selector parsing back to its matchers plus the tenant matcher. -/
theorem injectMatcher_roundtrip_witness :
    (injectMatcher [] ⟨"tenant", .matchEqual, "a"⟩ =
      .ok (valuesSet [] matchersParam
        (matchersToString [⟨"tenant", .matchEqual, "a"⟩]))) ∧
    List.Forall₂ (fun o o' => ∀ ms, parseMetricSelector o = some ms →
        parseMetricSelector o' = some (ms ++ [⟨"tenant", .matchEqual, "a"⟩]))
      ["up"] ["\x7b__name__=\"up\",tenant=\"a\"\x7d"] := by
  constructor
  · exact ((injectMatcher_roundtrip [] ⟨"tenant", .matchEqual, "a"⟩ (by decide)).1
      (by decide)).1
  · exact (injectMatcher_roundtrip [("match[]", ["up"])] ⟨"tenant", .matchEqual, "a"⟩
      (by decide)).2 [("match[]", ["\x7b__name__=\"up\",tenant=\"a\"\x7d"])]
      (by decide) (by decide)

/-! ## Claim C3 -/

/-- Claim C3 (confirmed): with exactly one tenant identity and regex mode off,
the matcher built by the query handler is an equality matcher on the configured
label with that value; in particular identity set `team-a`, label `tenant` and
query `up` produce the enforced query `up{tenant="team-a"}` and the request is
forwarded with it. -/
theorem query_singleValue :
    (∀ (label v : String) (eor : Bool) (co me : String → Bool),
      routesQueryMatcher ⟨label, false, eor, co, me⟩ [v]
        = .ok ⟨label, .matchEqual, v⟩) ∧
    routesQuery ⟨"tenant", false, false, fun _ => true, fun _ => false⟩ ["team-a"]
        ⟨"GET", [("query", ["up"])], [], false⟩ =
      .forwarded none ⟨"GET", [("query", ["up\x7btenant=\"team-a\"\x7d"])], [], false⟩ := by
  constructor
  · intro label v eor co me
    rfl
  · decide

/-! ## Claim C8 -/

/-- Counterexample to claim C8 as stated: on a POST selector-list request whose
form-body `match[]` occurrence fails to parse, the handler returns with NO
status written (not 400) and without forwarding. -/
theorem parse_failure_counterexample :
    parseMetricSelector "up\x7b" = none ∧
    routesMatcher ⟨"tenant", false, false, fun _ => true, fun _ => false⟩ ["a"]
        ⟨"POST", [], [("match[]", ["up\x7b"])], false⟩ = .returned none ∧
    Outcome.returned none ≠ Outcome.returned (some 400) := by decide

/-- Claim C8 (corrected): a query-expression parse failure in either location of
the query handler yields a 400, and a selector parse failure on the URL side of
the selector-list handler yields a 400; but a selector parse failure in the POST
form body of the selector-list handler makes it return silently — no status
written, no forwarding. -/
theorem parse_failure_status (cfg : ProxyConfig) (vals : List String) (req : Request)
    (m : Matcher) :
    (routesQueryMatcher cfg vals = .ok m →
      valuesGet req.urlQuery queryParam ≠ "" →
      promEnforce cfg.errorOnReplace m (valuesGet req.urlQuery queryParam)
        = .error .queryParse →
      routesQuery cfg vals req = .returned (some 400)) ∧
    (∀ p, routesQueryMatcher cfg vals = .ok m →
      req.bodyMalformed = false → req.method = "POST" →
      enforceQueryValues cfg.errorOnReplace m req.urlQuery = .ok p →
      valuesGet req.postForm queryParam ≠ "" →
      promEnforce cfg.errorOnReplace m (valuesGet req.postForm queryParam)
        = .error .queryParse →
      routesQuery cfg vals req = .returned (some 400)) ∧
    (∀ v rest s, sortStrings vals = v :: rest →
      newLabelMatcher cfg (v :: rest) = .ok m →
      injectMatcher req.urlQuery m = .error s →
      routesMatcher cfg vals req = .returned (some 400)) ∧
    (∀ v rest q2 s, sortStrings vals = v :: rest →
      newLabelMatcher cfg (v :: rest) = .ok m →
      injectMatcher req.urlQuery m = .ok q2 →
      req.method = "POST" → req.bodyMalformed = false →
      injectMatcher req.postForm m = .error s →
      routesMatcher cfg vals req = .returned none) := by
  obtain ⟨mth, uq, pf, bm⟩ := req
  refine ⟨?_, ?_, ?_, ?_⟩
  · intro hm hq hpe
    have he1 : enforceQueryValues cfg.errorOnReplace m uq = .error .queryParse := by
      simp [enforceQueryValues, hq, hpe]
    simp [routesQuery, hm, he1, statusOf]
  · intro p hm hbody hpost hok hfq hpe
    obtain ⟨q1, f1⟩ := p
    have hbm : bm = false := hbody
    subst hbm
    have hpost' : mth = "POST" := hpost
    have he2 : enforceQueryValues cfg.errorOnReplace m pf = .error .queryParse := by
      simp [enforceQueryValues, hfq, hpe]
    simp [routesQuery, hm, hok, hpost', he2, statusOf]
  · intro v rest s hs hnm hinj
    simp [routesMatcher, hs, hnm, hinj]
  · intro v rest q2 s hs hnm hinj hpost hbody hinj2
    have hbm : bm = false := hbody
    subst hbm
    have hpost' : mth = "POST" := hpost
    simp [routesMatcher, hs, hnm, hinj, hpost', hinj2]

/-- Witness for C8: a malformed query in the URL yields a 400 on the query
handler, and a malformed POST-body selector makes the selector-list handler
return silently. -/
theorem parse_failure_status_witness :
    routesQuery ⟨"tenant", false, false, fun _ => true, fun _ => false⟩ ["a"]
        ⟨"GET", [("query", ["up\x7b"])], [], false⟩ = .returned (some 400) ∧
    routesMatcher ⟨"tenant", false, false, fun _ => true, fun _ => false⟩ ["a"]
        ⟨"POST", [], [("match[]", ["up\x7b"])], false⟩ = .returned none := by
  constructor
  · exact (parse_failure_status ⟨"tenant", false, false, fun _ => true, fun _ => false⟩
      ["a"] ⟨"GET", [("query", ["up\x7b"])], [], false⟩
      ⟨"tenant", .matchEqual, "a"⟩).1 (by decide) (by decide) (by decide)
  · exact (parse_failure_status ⟨"tenant", false, false, fun _ => true, fun _ => false⟩
      ["a"] ⟨"POST", [], [("match[]", ["up\x7b"])], false⟩
      ⟨"tenant", .matchEqual, "a"⟩).2.2.2 "a" []
      [("match[]", ["\x7btenant=\"a\"\x7d"])] "selector parse error"
      (by decide) (by decide) (by decide) (by decide) (by decide) (by decide)

/-! ## Claim C7 -/

/-- Counterexample to claim C7 as stated: a request whose URL query string does
contain the `query` parameter, but with a malformed expression, is NOT
forwarded — the handler rejects it with 400 — refuting the stated
"forwarded if and only if some location contained the parameter". -/
theorem query_forward_counterexample :
    valuesGet [("query", ["up\x7b"])] queryParam ≠ "" ∧
    routesQuery ⟨"tenant", false, false, fun _ => true, fun _ => false⟩ ["a"]
        ⟨"GET", [("query", ["up\x7b"])], [], false⟩ = .returned (some 400) := by decide

/-- Claim C7 (corrected): on a well-formed body, the query handler forwards
exactly when at least one location (URL query string; POST form body) carries
the `query` parameter AND every location carrying it enforces without error;
a location without the parameter is left untouched in the forwarded request,
and when neither location carries it the handler returns early with nothing
written. A location that carries the parameter but fails enforcement yields an
error response instead of forwarding (the correction to the claim's iff). -/
theorem query_forward_iff (cfg : ProxyConfig) (vals : List String) (req : Request)
    (m : Matcher) (hbody : req.bodyMalformed = false)
    (hm : routesQueryMatcher cfg vals = .ok m) :
    (∀ w r', routesQuery cfg vals req = .forwarded w r' →
      (valuesGet req.urlQuery queryParam ≠ "" ∨
        (req.method = "POST" ∧ valuesGet req.postForm queryParam ≠ "")) ∧
      (valuesGet req.urlQuery queryParam = "" → r'.urlQuery = req.urlQuery) ∧
      (req.method = "POST" → valuesGet req.postForm queryParam = "" →
        r'.postForm = req.postForm)) ∧
    ((valuesGet req.urlQuery queryParam ≠ "" →
        ∃ q', promEnforce cfg.errorOnReplace m (valuesGet req.urlQuery queryParam)
          = .ok q') →
      (req.method = "POST" → valuesGet req.postForm queryParam ≠ "" →
        ∃ q', promEnforce cfg.errorOnReplace m (valuesGet req.postForm queryParam)
          = .ok q') →
      ((∃ w r', routesQuery cfg vals req = .forwarded w r') ↔
        (valuesGet req.urlQuery queryParam ≠ "" ∨
          (req.method = "POST" ∧ valuesGet req.postForm queryParam ≠ "")))) ∧
    ((valuesGet req.urlQuery queryParam = "" ∧
        ¬(req.method = "POST" ∧ valuesGet req.postForm queryParam ≠ "")) →
      routesQuery cfg vals req = .returned none) := by
  obtain ⟨mth, uq, pf, bm⟩ := req
  have hbm : bm = false := hbody
  subst hbm
  by_cases hu : valuesGet uq queryParam = ""
  · have he1 : enforceQueryValues cfg.errorOnReplace m uq = .ok (uq, false) := by
      simp [enforceQueryValues, hu]
    by_cases hp : mth = "POST"
    · by_cases hf : valuesGet pf queryParam = ""
      · have he2 : enforceQueryValues cfg.errorOnReplace m pf = .ok (pf, false) := by
          simp [enforceQueryValues, hf]
        have hout : routesQuery cfg vals ⟨mth, uq, pf, false⟩ = .returned none := by
          simp [routesQuery, hm, he1, hp, he2]
        refine ⟨?_, ?_, ?_⟩
        · intro w r' hfwd
          rw [hout] at hfwd
          exact absurd hfwd (by simp)
        · intro _ _
          constructor
          · rintro ⟨w, r', hfwd⟩
            rw [hout] at hfwd
            exact absurd hfwd (by simp)
          · rintro (h | ⟨_, h⟩)
            · exact absurd hu h
            · exact absurd hf h
        · intro _
          exact hout
      · cases hpe : promEnforce cfg.errorOnReplace m (valuesGet pf queryParam) with
        | error e =>
          have he2 : enforceQueryValues cfg.errorOnReplace m pf = .error e := by
            simp [enforceQueryValues, hf, hpe]
          have hout : routesQuery cfg vals ⟨mth, uq, pf, false⟩
              = .returned (some (statusOf e)) := by
            simp [routesQuery, hm, he1, hp, he2]
          refine ⟨?_, ?_, ?_⟩
          · intro w r' hfwd
            rw [hout] at hfwd
            exact absurd hfwd (by simp)
          · intro _ h2
            exfalso
            rcases h2 hp hf with ⟨q', hq'⟩
            exact absurd hq' (by simp)
          · rintro ⟨_, hcon⟩
            exact absurd ⟨hp, hf⟩ hcon
        | ok q2 =>
          have he2 : enforceQueryValues cfg.errorOnReplace m pf
              = .ok (valuesSet pf queryParam q2, true) := by
            simp [enforceQueryValues, hf, hpe]
          have hout : routesQuery cfg vals ⟨mth, uq, pf, false⟩
              = .forwarded none ⟨mth, uq, valuesSet pf queryParam q2, false⟩ := by
            simp [routesQuery, hm, he1, hp, he2]
          refine ⟨?_, ?_, ?_⟩
          · intro w r' hfwd
            rw [hout] at hfwd
            injection hfwd with h1 h2
            subst h1
            subst h2
            exact ⟨Or.inr ⟨hp, hf⟩, fun _ => rfl, fun _ hf2 => absurd hf2 hf⟩
          · intro _ _
            exact ⟨fun _ => Or.inr ⟨hp, hf⟩, fun _ => ⟨none, _, hout⟩⟩
          · rintro ⟨_, hcon⟩
            exact absurd ⟨hp, hf⟩ hcon
    · have hout : routesQuery cfg vals ⟨mth, uq, pf, false⟩ = .returned none := by
        simp [routesQuery, hm, he1, hp]
      refine ⟨?_, ?_, ?_⟩
      · intro w r' hfwd
        rw [hout] at hfwd
        exact absurd hfwd (by simp)
      · intro _ _
        constructor
        · rintro ⟨w, r', hfwd⟩
          rw [hout] at hfwd
          exact absurd hfwd (by simp)
        · rintro (h | ⟨h, _⟩)
          · exact absurd hu h
          · exact absurd h hp
      · intro _
        exact hout
  · cases hpe1 : promEnforce cfg.errorOnReplace m (valuesGet uq queryParam) with
    | error e =>
      have he1 : enforceQueryValues cfg.errorOnReplace m uq = .error e := by
        simp [enforceQueryValues, hu, hpe1]
      have hout : routesQuery cfg vals ⟨mth, uq, pf, false⟩
          = .returned (some (statusOf e)) := by
        simp [routesQuery, hm, he1]
      refine ⟨?_, ?_, ?_⟩
      · intro w r' hfwd
        rw [hout] at hfwd
        exact absurd hfwd (by simp)
      · intro h1 _
        exfalso
        rcases h1 hu with ⟨q', hq'⟩
        exact absurd hq' (by simp)
      · rintro ⟨h, _⟩
        exact absurd h hu
    | ok q1 =>
      have he1 : enforceQueryValues cfg.errorOnReplace m uq
          = .ok (valuesSet uq queryParam q1, true) := by
        simp [enforceQueryValues, hu, hpe1]
      by_cases hp : mth = "POST"
      · by_cases hf : valuesGet pf queryParam = ""
        · have he2 : enforceQueryValues cfg.errorOnReplace m pf = .ok (pf, false) := by
            simp [enforceQueryValues, hf]
          have hout : routesQuery cfg vals ⟨mth, uq, pf, false⟩
              = .forwarded none ⟨mth, valuesSet uq queryParam q1, pf, false⟩ := by
            simp [routesQuery, hm, he1, hp, he2]
          refine ⟨?_, ?_, ?_⟩
          · intro w r' hfwd
            rw [hout] at hfwd
            injection hfwd with h1 h2
            subst h1
            subst h2
            exact ⟨Or.inl hu, fun h => absurd h hu, fun _ _ => rfl⟩
          · intro _ _
            exact ⟨fun _ => Or.inl hu, fun _ => ⟨none, _, hout⟩⟩
          · rintro ⟨h, _⟩
            exact absurd h hu
        · cases hpe2 : promEnforce cfg.errorOnReplace m (valuesGet pf queryParam) with
          | error e =>
            have he2 : enforceQueryValues cfg.errorOnReplace m pf = .error e := by
              simp [enforceQueryValues, hf, hpe2]
            have hout : routesQuery cfg vals ⟨mth, uq, pf, false⟩
                = .returned (some (statusOf e)) := by
              simp [routesQuery, hm, he1, hp, he2]
            refine ⟨?_, ?_, ?_⟩
            · intro w r' hfwd
              rw [hout] at hfwd
              exact absurd hfwd (by simp)
            · intro _ h2
              exfalso
              rcases h2 hp hf with ⟨q', hq'⟩
              exact absurd hq' (by simp)
            · rintro ⟨h, _⟩
              exact absurd h hu
          | ok q2 =>
            have he2 : enforceQueryValues cfg.errorOnReplace m pf
                = .ok (valuesSet pf queryParam q2, true) := by
              simp [enforceQueryValues, hf, hpe2]
            have hout : routesQuery cfg vals ⟨mth, uq, pf, false⟩
                = .forwarded none
                  ⟨mth, valuesSet uq queryParam q1, valuesSet pf queryParam q2, false⟩ := by
              simp [routesQuery, hm, he1, hp, he2]
            refine ⟨?_, ?_, ?_⟩
            · intro w r' hfwd
              rw [hout] at hfwd
              injection hfwd with h1 h2
              subst h1
              subst h2
              exact ⟨Or.inl hu, fun h => absurd h hu, fun _ hf2 => absurd hf2 hf⟩
            · intro _ _
              exact ⟨fun _ => Or.inl hu, fun _ => ⟨none, _, hout⟩⟩
            · rintro ⟨h, _⟩
              exact absurd h hu
      · have hout : routesQuery cfg vals ⟨mth, uq, pf, false⟩
            = .forwarded none ⟨mth, valuesSet uq queryParam q1, pf, false⟩ := by
          simp [routesQuery, hm, he1, hp]
        refine ⟨?_, ?_, ?_⟩
        · intro w r' hfwd
          rw [hout] at hfwd
          injection hfwd with h1 h2
          subst h1
          subst h2
          exact ⟨Or.inl hu, fun h => absurd h hu, fun hpost => absurd hpost hp⟩
        · intro _ _
          exact ⟨fun _ => Or.inl hu, fun _ => ⟨none, _, hout⟩⟩
        · rintro ⟨h, _⟩
          exact absurd h hu

/-- Witness for C7 at a concrete GET request carrying a well-formed query: the
handler forwards, and the forwarded-iff-contained equivalence holds. -/
theorem query_forward_iff_witness :
    (∃ w r', routesQuery ⟨"tenant", false, false, fun _ => true, fun _ => false⟩ ["a"]
        ⟨"GET", [("query", ["up"])], [], false⟩ = .forwarded w r') ↔
      (valuesGet [("query", ["up"])] queryParam ≠ "" ∨
        ("GET" = "POST" ∧ valuesGet ([] : Values) queryParam ≠ "")) := by
  exact (query_forward_iff ⟨"tenant", false, false, fun _ => true, fun _ => false⟩
    ["a"] ⟨"GET", [("query", ["up"])], [], false⟩ ⟨"tenant", .matchEqual, "a"⟩
    rfl (by decide)).2.1
    (fun _ => ⟨"up\x7btenant=\"a\"\x7d", by decide⟩)
    (fun hpost _ => absurd hpost (by decide))
